import Mathlib

/-!
Verification of the command-line scanner, embedded-script decoder, bootstrap
sequence and interactive loop of OpenSTA's `src/app/StaMain.cc`.

Characters and bytes are modelled as `Nat` values (their character codes);
machine integers are modelled as `Nat`/`Int` with explicit reductions mod 256
where the C char conversion truncates.  The Tcl interpreter, the readline
front end and the analysis engine are external collaborators: a Tcl
evaluation's outcome is supplied by an oracle (`Nat → TclEval`, indexed by the
evaluation's position in the run), and the observable behaviour of the program
is a trace of events (`Ev`).
-/

namespace StaMain

/-! ### Command-line scanning (findCmdLineFlag / findCmdLineKey) -/

/-- findCmdLineFlag: scans argv indices 1 .. argc-1 for an argument equal to
the flag (`stringEq` is exact string equality). -/
def findCmdLineFlag (args : List String) (flag : String) : Bool :=
  (args.drop 1).any (fun arg => arg == flag)

/-- Loop body of findCmdLineKey on the remaining arguments: an argument equal
to the key returns the following argument provided one exists (the code
checks `argi + 1 < argc`); otherwise scanning continues. -/
def findKeyAux (key : String) : List String → Option String
  | arg :: next :: rest =>
    if arg = key then some next else findKeyAux key (next :: rest)
  | _ => none

/-- findCmdLineKey: scans argv indices 1 .. argc-1. -/
def findCmdLineKey (args : List String) (key : String) : Option String :=
  findKeyAux key (args.drop 1)

/-! ### The triplet decoder of evalTclInit -/

/-- Decimal digit character, ASCII 48-57. -/
def isDigitChar (c : Nat) : Bool := 48 ≤ c && c ≤ 57

/-- Whitespace characters skipped by C `atoi` (space and ASCII 9-13). -/
def isSpaceChar (c : Nat) : Bool := c == 32 || (9 ≤ c && c ≤ 13)

/-- Value of the leading digit run, accumulated the way C `atoi`/`strtol`
accumulates it; stops at the first non-digit. -/
def atoiDigits : List Nat → Nat → Nat
  | [], acc => acc
  | c :: cs, acc => if isDigitChar c then atoiDigits cs (acc * 10 + (c - 48)) else acc

/-- C `atoi` on a byte string (the bytes before the terminating NUL): skip
leading whitespace, then an optional sign (45 is the minus sign, 43 the plus
sign), then leading digits.  Values are idealized as unbounded integers; the
C function is only applied to 3-character slices here, where no overflow can
occur. -/
def atoiList (s : List Nat) : Int :=
  match s.dropWhile (fun c => isSpaceChar c) with
  | [] => 0
  | c :: rest =>
    if c = 45 then - (atoiDigits rest 0 : Int)
    else if c = 43 then (atoiDigits rest 0 : Int)
    else (atoiDigits (c :: rest) 0 : Int)

/-- Consecutive 3-character slices of a fragment, exactly as the decoding loop
of evalTclInit reads them (`for (s = init; s < &init[init_length]; s += 3)`);
fragment lengths are multiples of 3 by the bundle invariant, under which the
slices tile the fragment exactly. -/
def chunks3 : List Nat → List (List Nat)
  | a :: b :: c :: rest => [a, b, c] :: chunks3 rest
  | _ => []

/-- One slice decoded as in evalTclInit: `char ch = atoi(code)`; the byte
stored through `u` is the atoi value reduced mod 256 (C int-to-char
truncation). -/
def decodeSlice (sl : List Nat) : Nat := (atoiList sl % 256).toNat

/-- All bytes decoded from one fragment. -/
def decodeFragment (f : List Nat) : List Nat := (chunks3 f).map decodeSlice

/-- The decoded buffer: the in-order concatenation of every fragment's decoded
bytes (the outer loop of evalTclInit over the NUL-terminated `inits` array). -/
def decodeInits (inits : List (List Nat)) : List Nat :=
  (inits.map decodeFragment).flatten

/-- Total length of all fragments (`length` in evalTclInit). -/
def totalLength (inits : List (List Nat)) : Nat :=
  (inits.map List.length).sum

/-- Size of the buffer evalTclInit allocates: `new char[length / 3 + 1]`. -/
def bufSize (inits : List (List Nat)) : Nat := totalLength inits / 3 + 1

/-- Number of bytes evalTclInit writes through `u`: one byte per slice plus
the final terminating NUL (`*u = 0`). -/
def bytesWritten (inits : List (List Nat)) : Nat := (decodeInits inits).length + 1

/-- Modelled from the spec: the decimal value a 3-digit slice spells. -/
def specSliceVal (sl : List Nat) : Nat :=
  sl.foldl (fun a c => a * 10 + (c - 48)) 0

/-- Modelled from the spec: "concatenate, in order, the decoded bytes of every
fragment (each 3-character slice parsed as a decimal byte value) into one
buffer".  Compared against the source-derived `decodeInits`. -/
def specDecode (inits : List (List Nat)) : List Nat :=
  (inits.map (fun f => (chunks3 f).map specSliceVal)).flatten

/-- A valid encoded slice: three decimal digit characters spelling a byte
value (0-255). -/
def validSlice (sl : List Nat) : Bool :=
  sl.all isDigitChar && decide (specSliceVal sl ≤ 255)

/-- Modelled from the spec: a byte's 3-digit decimal code (the build-time
encoder itself is not part of this source file). -/
def encodeByte (b : Nat) : List Nat :=
  [48 + b / 100, 48 + b / 10 % 10, 48 + b % 10]

/-- Modelled from the spec: re-encode a byte sequence fragment. -/
def encodeFragment (bs : List Nat) : List Nat := (bs.map encodeByte).flatten

/-! ### Thread-count argument (parseThreadsArg) -/

/-- Modelled from the spec: `isDigits` of StringUtil (not under src/) holds
when every character is a decimal digit. -/
def isDigits (s : String) : Bool :=
  s.data.all (fun c => isDigitChar c.toNat)

/-- C `atoi` applied to a Lean string's characters. -/
def atoiStr (s : String) : Int := atoiList (s.data.map Char.toNat)

/-- Decimal value of a digit string (the integer a `-threads` value spells). -/
def decVal (s : String) : Nat :=
  s.data.foldl (fun a c => a * 10 + (c.toNat - 48)) 0

/-- Outcome of parseThreadsArg: the thread count, whether it was recognized
(`exists` in the source) and whether the warning was printed to stderr. -/
structure ThreadsResult where
  thread_count : Int
  threadsExists : Bool
  warned : Bool
deriving DecidableEq

/-- parseThreadsArg, including the caller's initialization of
`thread_count = 1` and `threads_exists = false` (staMain lines 66-67).
`processorCount()` of Machine (not under src/) is the detected core count,
passed in as `procCount`. -/
def parseThreadsArg (args : List String) (procCount : Nat) : ThreadsResult :=
  match findCmdLineKey args "-threads" with
  | none => ⟨1, false, false⟩
  | some v =>
    if v = "max" then ⟨(procCount : Int), true, false⟩
    else if isDigits v then ⟨atoiStr v, true, false⟩
    else ⟨1, false, true⟩

/-! ### History loading (load_history) -/

/-- The lines getline returns, each keeping its terminating newline (10); a
final line not terminated by a newline is returned as-is. -/
def getLines : List Nat → List (List Nat)
  | [] => []
  | c :: cs =>
    if c = 10 then [10] :: getLines cs
    else
      match getLines cs with
      | [] => [[c]]
      | l :: ls => (c :: l) :: ls

/-- C strlen on the getline buffer: the line's bytes followed by a NUL, so the
length of the prefix before the first NUL byte. -/
def cstrlen (l : List Nat) : Nat := (l.takeWhile (fun c => c ≠ 0)).length

/-- The body of load_history's loop on one line: `line[strlen(line)-1] = 0`,
then `add_history(line)` when `line[0] != 0`; the stored entry is the C
string's contents, i.e. the bytes before the first NUL.  (The C index
`strlen(line)-1` is well defined only when the line does not begin with a
NUL byte; the theorems assume NUL-free file contents.) -/
def historyEntryOf (line : List Nat) : Option (List Nat) :=
  let l := line.set (cstrlen line - 1) 0
  if l.headD 0 ≠ 0 then some (l.takeWhile (fun c => c ≠ 0)) else none

/-- load_history over the history file's contents: the entries appended to the
readline history, in file order. -/
def load_history (content : List Nat) : List (List Nat) :=
  (getLines content).filterMap historyEntryOf

/-- The amended loader contract: each line loses exactly its final character
(which is the trailing newline whenever one is present); lines empty after
that removal are skipped; the rest are appended in file order. -/
def specLoadAmended (content : List Nat) : List (List Nat) :=
  (getLines content).filterMap (fun line =>
    let s := line.dropLast
    if s.isEmpty then none else some s)

/-! ### The bootstrap sequence and interactive loop as a state machine -/

/-- Result of one Tcl_Eval call, supplied by an oracle: whether it returned
TCL_OK, and whether the evaluated script invoked the registered exit command
(command_exit, which sets the `ended` flag). -/
structure TclEval where
  ok : Bool
  setsEnded : Bool
deriving DecidableEq

/-- Observable events of a run of staMain. -/
inductive Ev where
  | initSta
  | setSta
  | makeComponents
  | setThreadCount
  | createInterp
  | registerExit
  | tclInit
  | swigInit
  | bindSta
  | evalBundle
  | evalErrorInfo
  | diagTclInitErr
  | diagTclInitHint
  | exitProcess (code : Nat)
  | evalSplash
  | evalDefineCmds
  | evalImport
  | sourceUserInit
  | evalXCmd
  | sourceFFile
  | loadHistory
  | prompt
  | evalLine (line : String)
  | diagLineErr
  | addHist (line : String)
  | saveHistory
  | deleteInterp
deriving DecidableEq

/-- Process state: the count of Tcl_Eval calls so far (indexing the oracle),
the last evaluation's status (`status` in staMain), the `ended` flag set by
command_exit, whether `exit()` has been called (after which nothing further
is observable) and with which code, the event trace, and the scripts passed
to the bundle-evaluation call site of evalTclInit. -/
structure MState where
  n : Nat
  status : Bool
  ended : Bool
  halted : Bool
  exitCode : Option Nat
  trace : List Ev
  bundleScripts : List (List Nat)
deriving DecidableEq

/-- The state at process start. -/
def MState.init : MState := ⟨0, true, false, false, none, [], []⟩

/-- Record an observable action; a no-op once the process has exited. -/
def emit (st : MState) (e : Ev) : MState :=
  if st.halted then st else { st with trace := st.trace ++ [e] }

/-- C `exit(code)`: record the exit and stop all further effects. -/
def halt (st : MState) (code : Nat) : MState :=
  if st.halted then st
  else { st with trace := st.trace ++ [Ev.exitProcess code], halted := true,
                 exitCode := some code }

/-- One Tcl_Eval call recorded as event `e`: consumes the next oracle outcome;
a script that runs the registered exit command sets the `ended` flag. -/
def tclEvalStep (oracle : Nat → TclEval) (e : Ev) (st : MState) : MState :=
  if st.halted then st
  else { st with n := st.n + 1,
                 status := (oracle st.n).ok,
                 ended := st.ended || (oracle st.n).setsEnded,
                 trace := st.trace ++ [e] }

/-- evalTclInit: decode the fragments into one buffer and Tcl_Eval it once;
on a non-TCL_OK status, eval `$errorInfo`, print the two stderr diagnostics,
and call `exit(0)`. -/
def evalTclInit (oracle : Nat → TclEval) (inits : List (List Nat))
    (st : MState) : MState :=
  let st1 := tclEvalStep oracle Ev.evalBundle st
  let st1 := if st.halted then st1
             else { st1 with bundleScripts := st1.bundleScripts ++ [decodeInits inits] }
  if st1.status then st1
  else
    let st2 := tclEvalStep oracle Ev.evalErrorInfo st1
    let st3 := emit st2 Ev.diagTclInitErr
    let st4 := emit st3 Ev.diagTclInitHint
    halt st4 0

/-- staTclAppInit: Tcl_Init, the swig command registration, binding the Sta
singleton, evaluating the decoded bundle, then the flag-guarded steps.  The
statuses of the splash, define_sta_cmds, namespace-import, init-file, -x and
-f evaluations are discarded, exactly as in the source; sourcing a file is a
single Tcl_Eval of a `source -echo -verbose` command
(sourceTclFileEchoVerbose). -/
def staTclAppInit (oracle : Nat → TclEval) (args : List String)
    (inits : List (List Nat)) (st : MState) : MState :=
  let st := emit st Ev.tclInit
  let st := emit st Ev.swigInit
  let st := emit st Ev.bindSta
  let st := evalTclInit oracle inits st
  let st := if findCmdLineFlag args "-no_splash" then st
            else tclEvalStep oracle Ev.evalSplash st
  let st := tclEvalStep oracle Ev.evalDefineCmds st
  let st := tclEvalStep oracle Ev.evalImport st
  let st := if findCmdLineFlag args "-no_init" then st
            else tclEvalStep oracle Ev.sourceUserInit st
  let st := match findCmdLineKey args "-x" with
            | some _ => tclEvalStep oracle Ev.evalXCmd st
            | none => st
  let st := match findCmdLineKey args "-f" with
            | some _ => tclEvalStep oracle Ev.sourceFFile st
            | none => st
  st

/-- One iteration body of the interactive while loop, after readline returned
`line`: Tcl_Eval it; on a non-TCL_OK status print the interpreter result to
stderr; add non-empty lines to the readline history. -/
def replIter (oracle : Nat → TclEval) (line : String) (st : MState) : MState :=
  let st := emit st Ev.prompt
  let st := tclEvalStep oracle (Ev.evalLine line) st
  let st := if st.status then st else emit st Ev.diagLineErr
  if line = "" then st else emit st (Ev.addHist line)

/-- The interactive loop of staMain.  The input list models the successive
readline results; its end models readline returning NULL.  The loop stops
before prompting whenever `ended` is set (the `!ended` guard together with
the `if (ended) break` at the bottom of the loop body). -/
def repl (oracle : Nat → TclEval) : List String → MState → MState
  | [], st => st
  | line :: rest, st =>
    if st.ended then st
    else repl oracle rest (replIter oracle line st)

/-- staMain down to just before the interactive loop: initSta, Sta setup, the
thread-count hand-off (setThreadCount is called iff parseThreadsArg set
`exists`), interpreter creation, registration of the exit command,
staTclAppInit, and load_history. -/
def bootState (oracle : Nat → TclEval) (args : List String)
    (inits : List (List Nat)) (procCount : Nat) : MState :=
  let st := MState.init
  let st := emit st Ev.initSta
  let st := emit st Ev.setSta
  let st := emit st Ev.makeComponents
  let st := if (parseThreadsArg args procCount).threadsExists
            then emit st Ev.setThreadCount else st
  let st := emit st Ev.createInterp
  let st := emit st Ev.registerExit
  let st := staTclAppInit oracle args inits st
  emit st Ev.loadHistory

/-- A whole run of staMain: bootstrap, the interactive loop, save_history and
interpreter teardown. -/
def staMainRun (oracle : Nat → TclEval) (args : List String)
    (lines : List String) (inits : List (List Nat)) (procCount : Nat) : MState :=
  let st := repl oracle lines (bootState oracle args inits procCount)
  let st := emit st Ev.saveHistory
  emit st Ev.deleteInterp

/-! ### Derived trace shapes and ordering -/

/-- The events staMain records before staTclAppInit runs. -/
def preTrace (args : List String) (procCount : Nat) : List Ev :=
  [Ev.initSta, Ev.setSta, Ev.makeComponents]
  ++ (if (parseThreadsArg args procCount).threadsExists
      then [Ev.setThreadCount] else [])
  ++ [Ev.createInterp, Ev.registerExit]

/-- The events staTclAppInit appends when the bundle evaluation succeeds. -/
def bootSuffix (args : List String) : List Ev :=
  [Ev.tclInit, Ev.swigInit, Ev.bindSta, Ev.evalBundle]
  ++ (if findCmdLineFlag args "-no_splash" then [] else [Ev.evalSplash])
  ++ [Ev.evalDefineCmds, Ev.evalImport]
  ++ (if findCmdLineFlag args "-no_init" then [] else [Ev.sourceUserInit])
  ++ (if (findCmdLineKey args "-x").isSome then [Ev.evalXCmd] else [])
  ++ (if (findCmdLineKey args "-f").isSome then [Ev.sourceFFile] else [])

/-- The events staTclAppInit appends when the bundle evaluation fails. -/
def fatalSuffix : List Ev :=
  [Ev.tclInit, Ev.swigInit, Ev.bindSta, Ev.evalBundle, Ev.evalErrorInfo,
   Ev.diagTclInitErr, Ev.diagTclInitHint, Ev.exitProcess 0]

/-- Event `a` comes before event `b` in trace `tr` whenever both occur. -/
abbrev before (tr : List Ev) (a b : Ev) : Prop :=
  a ∉ tr ∨ b ∉ tr ∨ tr.indexOf a < tr.indexOf b

/-- The bootstrap order actually implemented: the exit command is registered
immediately after the interpreter is created, before Tcl_Init. -/
def canonicalBootOrder : List Ev :=
  [Ev.createInterp, Ev.registerExit, Ev.tclInit, Ev.swigInit, Ev.bindSta,
   Ev.evalBundle, Ev.evalSplash, Ev.evalDefineCmds, Ev.evalImport,
   Ev.sourceUserInit, Ev.evalXCmd, Ev.sourceFFile]

/-- An oracle under which every evaluation succeeds and none runs exit. -/
def allOk : Nat → TclEval := fun _ => ⟨true, false⟩

/-- An oracle under which every evaluation fails. -/
def allFail : Nat → TclEval := fun _ => ⟨false, false⟩

/-- An oracle under which exactly the second evaluation (index 1, the splash
step when no flags are given) fails. -/
def splashFailOracle : Nat → TclEval := fun n => ⟨n == 0, false⟩

/-! ## Theorems -/

/-! ### The argument scanner (claim C4) -/

theorem findKeyAux_some_iff (key : String) :
    ∀ (l : List String) (r : String),
      findKeyAux key l = some r ↔
        ∃ i, i + 1 < l.length ∧ l.getD i "" = key ∧
          (∀ j, j < i → l.getD j "" ≠ key) ∧ r = l.getD (i + 1) ""
  | [], r => by
    simp only [findKeyAux, List.length_nil]
    constructor
    · intro h; cases h
    · rintro ⟨i, hi, -⟩; omega
  | [a], r => by
    simp only [findKeyAux, List.length_singleton]
    constructor
    · intro h; cases h
    · rintro ⟨i, hi, -⟩; omega
  | a :: b :: rest, r => by
    by_cases h : a = key
    · rw [findKeyAux, if_pos h]
      constructor
      · intro hr
        injection hr with hr
        refine ⟨0, by simp, by simpa using h, by omega, by simp [hr.symm]⟩
      · rintro ⟨i, hlen, hkey, hfirst, hr⟩
        cases i with
        | zero => simp [List.getD_cons_succ, List.getD_cons_zero] at hr; simp [hr]
        | succ i' =>
          exact absurd (by simpa using h) (hfirst 0 (Nat.succ_pos _))
    · rw [findKeyAux, if_neg h, findKeyAux_some_iff key (b :: rest) r]
      constructor
      · rintro ⟨i, hlen, hkey, hfirst, hr⟩
        refine ⟨i + 1, by simp at hlen ⊢; omega, by simpa using hkey, ?_, by simpa using hr⟩
        intro j hj
        cases j with
        | zero => simpa using h
        | succ j' =>
          have := hfirst j' (by omega)
          simpa using this
      · rintro ⟨i, hlen, hkey, hfirst, hr⟩
        cases i with
        | zero => exact absurd (by simpa using hkey) h
        | succ i' =>
          refine ⟨i', by simp at hlen ⊢; omega, by simpa using hkey, ?_, by simpa using hr⟩
          intro j hj
          have := hfirst (j + 1) (by omega)
          simpa using this

/-- Claim C4: findCmdLineKey returns the argument immediately following the
first argument at index at least 1 that exactly equals the key, provided that
match is not the last argument; otherwise it returns nothing.  The first
match wins and repeated keys get no special handling. -/
theorem C4_keyValue_first_match (args : List String) (key r : String) :
    findCmdLineKey args key = some r ↔
      ∃ i, 1 ≤ i ∧ i + 1 < args.length ∧ args.getD i "" = key ∧
        (∀ j, 1 ≤ j → j < i → args.getD j "" ≠ key) ∧ r = args.getD (i + 1) "" := by
  cases args with
  | nil =>
    rw [findCmdLineKey]
    simp only [List.drop_nil, findKeyAux, List.length_nil]
    constructor
    · intro h; cases h
    · rintro ⟨i, -, hi, -⟩; omega
  | cons a0 tl =>
    rw [findCmdLineKey, List.drop_one, List.tail_cons, findKeyAux_some_iff]
    constructor
    · rintro ⟨i, hlen, hkey, hfirst, hr⟩
      refine ⟨i + 1, by omega, by simp; omega, by simpa using hkey, ?_, by simpa using hr⟩
      intro j hj1 hji
      cases j with
      | zero => omega
      | succ j' =>
        have := hfirst j' (by omega)
        simpa using this
    · rintro ⟨i, h1, hlen, hkey, hfirst, hr⟩
      cases i with
      | zero => omega
      | succ i' =>
        refine ⟨i', by simp at hlen; omega, by simpa using hkey, ?_, by simpa using hr⟩
        intro j hj
        have := hfirst (j + 1) (by omega) (by omega)
        simpa using this

/-! ### The triplet decoder (claims C3, C8, C10) -/

theorem isDigitChar_bounds {c : Nat} (h : isDigitChar c = true) : 48 ≤ c ∧ c ≤ 57 := by
  simpa [isDigitChar] using h

theorem atoiDigits_all (l : List Nat) :
    ∀ acc, l.all isDigitChar = true →
      atoiDigits l acc = l.foldl (fun a c => a * 10 + (c - 48)) acc := by
  induction l with
  | nil => intro acc _; rfl
  | cons c cs ih =>
    intro acc h
    simp only [List.all_cons, Bool.and_eq_true] at h
    rw [atoiDigits, if_pos h.1, List.foldl_cons, ih _ h.2]

theorem atoiList_digits {a b c : Nat} (ha : isDigitChar a = true)
    (hb : isDigitChar b = true) (hc : isDigitChar c = true) :
    atoiList [a, b, c] = (((a - 48) * 100 + (b - 48) * 10 + (c - 48) : Nat) : Int) := by
  obtain ⟨ha1, ha2⟩ := isDigitChar_bounds ha
  have hsp : isSpaceChar a = false := by
    simp only [isSpaceChar, Bool.or_eq_false_iff, Bool.and_eq_false_iff]
    constructor
    · simpa using by omega
    · right; simpa using by omega
  have h45 : a ≠ 45 := by omega
  have h43 : a ≠ 43 := by omega
  rw [atoiList, List.dropWhile_cons, if_neg (by simp [hsp])]
  dsimp only
  rw [if_neg h45, if_neg h43, atoiDigits_all _ _ (by simp [ha, hb, hc])]
  simp only [List.foldl_cons, List.foldl_nil, Nat.cast_inj]
  ring

theorem specSliceVal_triple (a b c : Nat) :
    specSliceVal [a, b, c] = (a - 48) * 100 + (b - 48) * 10 + (c - 48) := by
  simp only [specSliceVal, List.foldl_cons, List.foldl_nil]
  ring

theorem decodeSlice_eq_spec {a b c : Nat} (hv : validSlice [a, b, c] = true) :
    decodeSlice [a, b, c] = specSliceVal [a, b, c] := by
  simp only [validSlice, Bool.and_eq_true, decide_eq_true_eq, List.all_cons,
    List.all_nil, Bool.and_true] at hv
  obtain ⟨⟨ha, hb, hc⟩, hle⟩ := hv
  rw [decodeSlice, atoiList_digits ha hb hc]
  rw [specSliceVal_triple] at hle ⊢
  omega

theorem chunks3_sizes : ∀ f : List Nat, ∀ sl ∈ chunks3 f, sl.length = 3
  | [], sl => by simp [chunks3]
  | [a], sl => by simp [chunks3]
  | [a, b], sl => by simp [chunks3]
  | a :: b :: c :: rest, sl => by
    intro hsl
    rw [chunks3, List.mem_cons] at hsl
    rcases hsl with h | h
    · simp [h]
    · exact chunks3_sizes rest sl h

theorem chunks3_flatten : ∀ f : List Nat, f.length % 3 = 0 → (chunks3 f).flatten = f
  | [], _ => rfl
  | [a], h => by simp at h
  | [a, b], h => by simp at h
  | a :: b :: c :: rest, h => by
    have hr : rest.length % 3 = 0 := by simp at h; omega
    simp [chunks3, chunks3_flatten rest hr]

theorem chunks3_count : ∀ f : List Nat, f.length % 3 = 0 →
    (chunks3 f).length = f.length / 3
  | [], _ => rfl
  | [a], h => by simp at h
  | [a, b], h => by simp at h
  | a :: b :: c :: rest, h => by
    have hr : rest.length % 3 = 0 := by simp at h; omega
    have ih := chunks3_count rest hr
    simp only [chunks3, List.length_cons, ih]
    omega

theorem decodeInits_length : ∀ inits : List (List Nat),
    (∀ f ∈ inits, f.length % 3 = 0) →
    (decodeInits inits).length = totalLength inits / 3
  | [], _ => rfl
  | f :: fs, h => by
    have hf := h f (by simp)
    have ih := decodeInits_length fs (fun g hg => h g (by simp [hg]))
    simp only [decodeInits, List.map_cons, List.flatten_cons, List.length_append,
      decodeFragment, List.length_map, chunks3_count f hf] at ih ⊢
    simp only [totalLength, List.map_cons, List.sum_cons] at ih ⊢
    rw [ih]
    omega

/-- Claim C10: under the bundle invariant (every fragment's length a multiple
of 3), evalTclInit writes exactly totalLength/3 decoded bytes plus one
terminating NUL, which is exactly the allocated buffer size
(totalLength/3 + 1), and the 3-character slices it reads tile each fragment
exactly, so every read stays inside its fragment. -/
theorem C10_decoder_bounds (inits : List (List Nat))
    (h3 : ∀ f ∈ inits, f.length % 3 = 0) :
    bytesWritten inits = bufSize inits ∧
    ∀ f ∈ inits, (chunks3 f).flatten = f ∧ ∀ sl ∈ chunks3 f, sl.length = 3 := by
  refine ⟨?_, fun f hf => ⟨chunks3_flatten f (h3 f hf), chunks3_sizes f⟩⟩
  simp only [bytesWritten, bufSize, decodeInits_length inits h3]

/-- Witness for C10 at a concrete bundle. -/
theorem C10_decoder_bounds_witness :
    (∀ f ∈ [[49, 48, 48, 48, 57, 55], [48, 57, 56]], f.length % 3 = 0) ∧
    (bytesWritten [[49, 48, 48, 48, 57, 55], [48, 57, 56]]
      = bufSize [[49, 48, 48, 48, 57, 55], [48, 57, 56]] ∧
    ∀ f ∈ [[49, 48, 48, 48, 57, 55], [48, 57, 56]],
      (chunks3 f).flatten = f ∧ ∀ sl ∈ chunks3 f, sl.length = 3) :=
  ⟨by decide, C10_decoder_bounds [[49, 48, 48, 48, 57, 55], [48, 57, 56]] (by decide)⟩

/-! ### Shape lemmas for the bootstrap machine -/

theorem evalTclInit_ok {oracle inits st} (hh : st.halted = false)
    (hok : (oracle st.n).ok = true) :
    evalTclInit oracle inits st =
      { st with n := st.n + 1, status := true,
                ended := st.ended || (oracle st.n).setsEnded,
                trace := st.trace ++ [Ev.evalBundle],
                bundleScripts := st.bundleScripts ++ [decodeInits inits] } := by
  simp [evalTclInit, tclEvalStep, hh, hok]

theorem evalTclInit_fail {oracle inits st} (hh : st.halted = false)
    (hfail : (oracle st.n).ok = false) :
    evalTclInit oracle inits st =
      { st with n := st.n + 2, status := (oracle (st.n + 1)).ok,
                ended := (st.ended || (oracle st.n).setsEnded)
                          || (oracle (st.n + 1)).setsEnded,
                halted := true, exitCode := some 0,
                trace := st.trace ++ [Ev.evalBundle, Ev.evalErrorInfo,
                  Ev.diagTclInitErr, Ev.diagTclInitHint, Ev.exitProcess 0],
                bundleScripts := st.bundleScripts ++ [decodeInits inits] } := by
  simp [evalTclInit, tclEvalStep, emit, halt, hh, hfail]

theorem tclEvalStep_halted {oracle e st} (hh : st.halted = true) :
    tclEvalStep oracle e st = st := by
  simp [tclEvalStep, hh]

theorem emit_halted {e : Ev} {st : MState} (hh : st.halted = true) :
    emit st e = st := by
  simp [emit, hh]

theorem staTclAppInit_ok {oracle args inits st} (hh : st.halted = false)
    (hok : (oracle st.n).ok = true) :
    (staTclAppInit oracle args inits st).trace = st.trace ++ bootSuffix args ∧
    (staTclAppInit oracle args inits st).halted = false ∧
    (staTclAppInit oracle args inits st).exitCode = st.exitCode ∧
    (staTclAppInit oracle args inits st).bundleScripts
      = st.bundleScripts ++ [decodeInits inits] := by
  cases h1 : findCmdLineFlag args "-no_splash" <;>
  cases h2 : findCmdLineFlag args "-no_init" <;>
  cases h3 : findCmdLineKey args "-x" <;>
  cases h4 : findCmdLineKey args "-f" <;>
    simp [staTclAppInit, evalTclInit, tclEvalStep, emit, bootSuffix,
      h1, h2, h3, h4, hh, hok]

theorem staTclAppInit_fail {oracle args inits st} (hh : st.halted = false)
    (hfail : (oracle st.n).ok = false) :
    (staTclAppInit oracle args inits st).trace = st.trace ++ fatalSuffix ∧
    (staTclAppInit oracle args inits st).halted = true ∧
    (staTclAppInit oracle args inits st).exitCode = some 0 ∧
    (staTclAppInit oracle args inits st).bundleScripts
      = st.bundleScripts ++ [decodeInits inits] := by
  cases h1 : findCmdLineFlag args "-no_splash" <;>
  cases h2 : findCmdLineFlag args "-no_init" <;>
  cases h3 : findCmdLineKey args "-x" <;>
  cases h4 : findCmdLineKey args "-f" <;>
    simp [staTclAppInit, evalTclInit, tclEvalStep, emit, halt, fatalSuffix,
      h1, h2, h3, h4, hh, hfail]

/-- The state staMain has built when staTclAppInit starts. -/
theorem bootState_unfold (oracle : Nat → TclEval) (args : List String)
    (inits : List (List Nat)) (procCount : Nat) :
    bootState oracle args inits procCount =
      emit (staTclAppInit oracle args inits
        ⟨0, true, false, false, none, preTrace args procCount, []⟩)
        Ev.loadHistory := by
  cases hT : (parseThreadsArg args procCount).threadsExists <;>
    simp [bootState, MState.init, emit, preTrace, hT]

theorem bootState_ok {oracle args inits procCount}
    (hok : (oracle 0).ok = true) :
    (bootState oracle args inits procCount).trace
      = preTrace args procCount ++ bootSuffix args ++ [Ev.loadHistory] ∧
    (bootState oracle args inits procCount).halted = false := by
  rw [bootState_unfold]
  obtain ⟨ht, hh, -, -⟩ :=
    @staTclAppInit_ok oracle args inits
      ⟨0, true, false, false, none, preTrace args procCount, []⟩ rfl hok
  rw [emit, if_neg (by simp [hh])]
  simp [ht, hh]

theorem bootState_fail {oracle args inits procCount}
    (hfail : (oracle 0).ok = false) :
    (bootState oracle args inits procCount).trace
      = preTrace args procCount ++ fatalSuffix ∧
    (bootState oracle args inits procCount).halted = true ∧
    (bootState oracle args inits procCount).exitCode = some 0 := by
  rw [bootState_unfold]
  obtain ⟨ht, hh, he, -⟩ :=
    @staTclAppInit_fail oracle args inits
      ⟨0, true, false, false, none, preTrace args procCount, []⟩ rfl hfail
  rw [emit_halted hh]
  exact ⟨ht, hh, he⟩

/-! ### Shape lemmas for the interactive loop -/

theorem repl_ended {oracle lines st} (h : st.ended = true) :
    repl oracle lines st = st := by
  cases lines with
  | nil => rfl
  | cons line rest => rw [repl, if_pos h]

theorem replIter_halted {oracle line st} (hh : st.halted = true) :
    replIter oracle line st = st := by
  simp [replIter, emit, tclEvalStep, hh]

theorem repl_halted {oracle st} (hh : st.halted = true) :
    ∀ lines, repl oracle lines st = st
  | [] => rfl
  | line :: rest => by
    rw [repl]
    split
    · rfl
    · rw [replIter_halted hh, repl_halted hh rest]

theorem replIter_shape {oracle line st} (hh : st.halted = false) :
    replIter oracle line st =
      { st with n := st.n + 1, status := (oracle st.n).ok,
                ended := st.ended || (oracle st.n).setsEnded,
                trace := st.trace ++ [Ev.prompt, Ev.evalLine line]
                  ++ (if (oracle st.n).ok then [] else [Ev.diagLineErr])
                  ++ (if line = "" then [] else [Ev.addHist line]) } := by
  cases hok : (oracle st.n).ok <;>
  by_cases hl : line = "" <;>
    simp [replIter, emit, tclEvalStep, hh, hok, hl]

/-! ### Claim C1: the bootstrap order -/

/-- Claim C1 counterexample: with the argument list ["sta"] (and an all-ok
oracle), the trace of a boot contains both the termination-command
registration (spec step 2) and the base-runtime initialization Tcl_Init
(spec step 1), but step 1 does NOT execute before step 2: staMain registers
the exit command on the freshly created interpreter (line 75) before
staTclAppInit runs Tcl_Init (line 140). -/
theorem C1_step_order_counterexample :
    Ev.registerExit ∈ (bootState allOk ["sta"] [] 1).trace ∧
    Ev.tclInit ∈ (bootState allOk ["sta"] [] 1).trace ∧
    ¬ ((bootState allOk ["sta"] [] 1).trace.indexOf Ev.tclInit
        < (bootState allOk ["sta"] [] 1).trace.indexOf Ev.registerExit) := by
  decide

/-- Claim C1 (amended): whenever the bundle evaluation succeeds, the bootstrap
steps execute in a fixed order that no argument position can change —
interpreter creation, then registration of the termination command (so step 2
runs before step 1's Tcl_Init), then Tcl_Init, the registrar, the engine
binding, the bundle, the banner, the command publication steps, the user init
file, the -x command and the -f file, in that order; the banner step runs iff
-no_splash is absent, the user-init step runs iff -no_init is absent, and the
-x evaluation always comes before the -f sourcing. -/
theorem C1_bootstrap_fixed_order (oracle : Nat → TclEval) (args : List String)
    (inits : List (List Nat)) (procCount : Nat) (hok : (oracle 0).ok = true) :
    canonicalBootOrder.Pairwise
      (before (bootState oracle args inits procCount).trace) ∧
    (Ev.evalSplash ∈ (bootState oracle args inits procCount).trace
      ↔ findCmdLineFlag args "-no_splash" = false) ∧
    (Ev.sourceUserInit ∈ (bootState oracle args inits procCount).trace
      ↔ findCmdLineFlag args "-no_init" = false) ∧
    (Ev.evalXCmd ∈ (bootState oracle args inits procCount).trace
      ↔ (findCmdLineKey args "-x").isSome = true) ∧
    (Ev.sourceFFile ∈ (bootState oracle args inits procCount).trace
      ↔ (findCmdLineKey args "-f").isSome = true) := by
  obtain ⟨ht, -⟩ := @bootState_ok oracle args inits procCount hok
  rw [ht]
  cases hT : (parseThreadsArg args procCount).threadsExists <;>
  cases h1 : findCmdLineFlag args "-no_splash" <;>
  cases h2 : findCmdLineFlag args "-no_init" <;>
  cases h3 : findCmdLineKey args "-x" <;>
  cases h4 : findCmdLineKey args "-f" <;>
    · simp only [preTrace, bootSuffix, hT, h1, h2, h3, h4, if_true, if_false,
        Bool.false_eq_true, Option.isSome_none, Option.isSome_some,
        List.nil_append, List.cons_append, List.append_nil, List.append_assoc]
      decide

/-- Witness for C1 at a concrete run (with -f placed before -x on the command
line). -/
theorem C1_bootstrap_fixed_order_witness :
    canonicalBootOrder.Pairwise
      (before (bootState allOk ["sta", "-f", "a.tcl", "-x", "cmd"] [] 2).trace) ∧
    (Ev.evalSplash ∈ (bootState allOk ["sta", "-f", "a.tcl", "-x", "cmd"] [] 2).trace
      ↔ findCmdLineFlag ["sta", "-f", "a.tcl", "-x", "cmd"] "-no_splash" = false) ∧
    (Ev.sourceUserInit ∈ (bootState allOk ["sta", "-f", "a.tcl", "-x", "cmd"] [] 2).trace
      ↔ findCmdLineFlag ["sta", "-f", "a.tcl", "-x", "cmd"] "-no_init" = false) ∧
    (Ev.evalXCmd ∈ (bootState allOk ["sta", "-f", "a.tcl", "-x", "cmd"] [] 2).trace
      ↔ (findCmdLineKey ["sta", "-f", "a.tcl", "-x", "cmd"] "-x").isSome = true) ∧
    (Ev.sourceFFile ∈ (bootState allOk ["sta", "-f", "a.tcl", "-x", "cmd"] [] 2).trace
      ↔ (findCmdLineKey ["sta", "-f", "a.tcl", "-x", "cmd"] "-f").isSome = true) :=
  C1_bootstrap_fixed_order allOk ["sta", "-f", "a.tcl", "-x", "cmd"] [] 2 rfl

/-! ### Claim C2: the error-handling tiers -/

/-- Claim C2 counterexample: with an oracle that fails exactly the splash
evaluation (bootstrap step 6) and the argument list ["sta"], the splash step
fails, yet the trace contains no diagnostic-stream write at all — the failing
status is silently discarded, not reported — and the sequence continues with
the following steps rather than just "continuing after writing the error
text" as the claim states. -/
theorem C2_silent_bootstrap_failure_counterexample :
    (splashFailOracle 1).ok = false ∧
    Ev.evalSplash ∈ (staTclAppInit splashFailOracle ["sta"] [] MState.init).trace ∧
    Ev.evalDefineCmds ∈ (staTclAppInit splashFailOracle ["sta"] [] MState.init).trace ∧
    Ev.diagTclInitErr ∉ (staTclAppInit splashFailOracle ["sta"] [] MState.init).trace ∧
    Ev.diagLineErr ∉ (staTclAppInit splashFailOracle ["sta"] [] MState.init).trace ∧
    (staTclAppInit splashFailOracle ["sta"] [] MState.init).halted = false := by
  decide

/-- Claim C2 (amended): only a non-success status from the decoded-bundle
evaluation terminates the process (emitting the error diagnostics and
exit(0)); a non-success status from bootstrap steps 6-10 is silently
discarded — nothing is written and the sequence continues to completion, its
trace independent of those statuses; a non-success status from an
interactively typed line writes the interpreter's error text to the
diagnostic stream and the loop continues with the next line. -/
theorem C2_error_tier_behaviour :
    (∀ (oracle : Nat → TclEval) args inits (st : MState),
      st.halted = false → (oracle st.n).ok = false →
      (staTclAppInit oracle args inits st).trace = st.trace ++ fatalSuffix ∧
      (staTclAppInit oracle args inits st).halted = true ∧
      (staTclAppInit oracle args inits st).exitCode = some 0) ∧
    (∀ (oracle : Nat → TclEval) args inits (st : MState),
      st.halted = false → (oracle st.n).ok = true →
      (staTclAppInit oracle args inits st).trace = st.trace ++ bootSuffix args ∧
      (staTclAppInit oracle args inits st).halted = false) ∧
    (∀ (oracle : Nat → TclEval) line rest (st : MState),
      st.halted = false → st.ended = false →
      (oracle st.n).ok = false → (oracle st.n).setsEnded = false →
      repl oracle (line :: rest) st = repl oracle rest (replIter oracle line st) ∧
      (replIter oracle line st).trace
        = st.trace ++ [Ev.prompt, Ev.evalLine line, Ev.diagLineErr]
          ++ (if line = "" then [] else [Ev.addHist line]) ∧
      (replIter oracle line st).halted = false ∧
      (replIter oracle line st).ended = false) := by
  refine ⟨?_, ?_, ?_⟩
  · intro oracle args inits st hh hf
    obtain ⟨a, b, c, -⟩ := staTclAppInit_fail hh hf
    exact ⟨a, b, c⟩
  · intro oracle args inits st hh hok
    obtain ⟨a, b, -, -⟩ := staTclAppInit_ok hh hok
    exact ⟨a, b⟩
  · intro oracle line rest st hh he hf hse
    refine ⟨by rw [repl, if_neg (by simp [he])], ?_, ?_, ?_⟩
    · rw [replIter_shape hh]
      simp [hf]
    · rw [replIter_shape hh]
      exact hh
    · rw [replIter_shape hh]
      simp [he, hse]

/-! ### Claim C9: the fatal path exits with status 0 -/

/-- Claim C9: when the decoded-bundle evaluation returns a non-success
status, the process terminates via exit(0): the recorded exit status is 0,
the success status, indistinguishable for a caller from a normal successful
exit. -/
theorem C9_fatal_exit_status_zero (oracle : Nat → TclEval)
    (inits : List (List Nat)) (st : MState) (hh : st.halted = false)
    (hfail : (oracle st.n).ok = false) :
    (evalTclInit oracle inits st).halted = true ∧
    (evalTclInit oracle inits st).exitCode = some 0 := by
  rw [evalTclInit_fail hh hfail]
  exact ⟨rfl, rfl⟩

/-- Witness for C9 at a concrete failing run. -/
theorem C9_fatal_exit_status_zero_witness :
    (evalTclInit allFail [] MState.init).halted = true ∧
    (evalTclInit allFail [] MState.init).exitCode = some 0 :=
  C9_fatal_exit_status_zero allFail [] MState.init rfl rfl

/-! ### Claim C6: the termination flag and the loop -/

/-- Claim C6: if evaluating an interactive line sets the termination flag (as
the registered exit command does), the loop finishes that iteration — the
error report and the history append still happen — and then stops without
prompting for further input (exactly one more prompt than before the line,
and the loop result is that iteration's state, untouched by any remaining
input); the flag is monotonic: a state with the flag set is left untouched
by the loop, and no evaluation or emission ever clears it. -/
theorem C6_exit_stops_loop :
    (∀ (oracle : Nat → TclEval) lines (st : MState),
      st.ended = true → repl oracle lines st = st) ∧
    (∀ (oracle : Nat → TclEval) e (st : MState),
      st.ended = true → (tclEvalStep oracle e st).ended = true) ∧
    (∀ (st : MState) e, (emit st e).ended = st.ended) ∧
    (∀ (oracle : Nat → TclEval) line rest (st : MState),
      st.ended = false → st.halted = false →
      (oracle st.n).setsEnded = true →
      repl oracle (line :: rest) st = replIter oracle line st ∧
      (replIter oracle line st).ended = true ∧
      (repl oracle (line :: rest) st).trace.count Ev.prompt
        = st.trace.count Ev.prompt + 1) := by
  refine ⟨fun oracle lines st h => repl_ended h, ?_, ?_, ?_⟩
  · intro oracle e st h
    by_cases hh : st.halted <;> simp [tclEvalStep, hh, h]
  · intro st e
    by_cases hh : st.halted <;> simp [emit, hh]
  · intro oracle line rest st he hh hse
    have hiter : (replIter oracle line st).ended = true := by
      rw [replIter_shape hh]
      simp [hse]
    have hstop : repl oracle (line :: rest) st = replIter oracle line st := by
      rw [repl, if_neg (by simp [he]), repl_ended hiter]
    refine ⟨hstop, hiter, ?_⟩
    rw [hstop, replIter_shape hh]
    by_cases hok : (oracle st.n).ok = true <;> by_cases hl : line = "" <;>
      simp [hok, hl, List.count_append, List.count_cons]

/-! ### Claim C3: the decoded buffer and its single evaluation -/

theorem decodeSlice_eq_spec_len {sl : List Nat} (h3 : sl.length = 3)
    (hv : validSlice sl = true) : decodeSlice sl = specSliceVal sl := by
  rcases sl with _ | ⟨a, _ | ⟨b, _ | ⟨c, _ | ⟨d, tl⟩⟩⟩⟩
  · exact absurd h3 (by simp)
  · exact absurd h3 (by simp)
  · exact absurd h3 (by simp)
  · exact decodeSlice_eq_spec hv
  · exact absurd h3 (by simp only [List.length_cons]; omega)

theorem decodeFragment_eq_spec {f : List Nat}
    (hv : ∀ sl ∈ chunks3 f, validSlice sl = true) :
    decodeFragment f = (chunks3 f).map specSliceVal := by
  rw [decodeFragment]
  apply List.map_congr_left
  intro sl hsl
  exact decodeSlice_eq_spec_len (chunks3_sizes f sl hsl) (hv sl hsl)

theorem decodeInits_eq_specDecode {inits : List (List Nat)}
    (hv : ∀ f ∈ inits, ∀ sl ∈ chunks3 f, validSlice sl = true) :
    decodeInits inits = specDecode inits := by
  rw [decodeInits, specDecode]
  congr 1
  apply List.map_congr_left
  intro f hf
  exact decodeFragment_eq_spec (hv f hf)

/-- Claim C3: under the bundle invariant (fragment lengths multiples of 3,
every slice a decimal byte code), the decoder produces the single buffer
equal to the in-order concatenation, over all fragments and over each
fragment's consecutive 3-character slices (which tile each fragment), of the
byte each slice spells; and evalTclInit passes that buffer to the
interpreter exactly once, as a single script. -/
theorem C3_decode_concatenation (inits : List (List Nat))
    (oracle : Nat → TclEval) (st : MState)
    (h3 : ∀ f ∈ inits, f.length % 3 = 0)
    (hv : ∀ f ∈ inits, ∀ sl ∈ chunks3 f, validSlice sl = true)
    (hh : st.halted = false) :
    decodeInits inits = specDecode inits ∧
    (∀ f ∈ inits, (chunks3 f).flatten = f) ∧
    (evalTclInit oracle inits st).bundleScripts
      = st.bundleScripts ++ [specDecode inits] ∧
    (evalTclInit oracle inits st).trace.count Ev.evalBundle
      = st.trace.count Ev.evalBundle + 1 := by
  have hd := decodeInits_eq_specDecode hv
  refine ⟨hd, fun f hf => chunks3_flatten f (h3 f hf), ?_, ?_⟩
  · cases hok : (oracle st.n).ok
    · rw [evalTclInit_fail hh hok, hd.symm]
    · rw [evalTclInit_ok hh hok, hd.symm]
  · cases hok : (oracle st.n).ok
    · rw [evalTclInit_fail hh hok]
      simp [List.count_append, List.count_cons]
    · rw [evalTclInit_ok hh hok]
      simp [List.count_append, List.count_cons]

/-- Witness for C3 at a concrete bundle (decoding to the bytes of "dak"). -/
theorem C3_decode_concatenation_witness :
    decodeInits [[49, 48, 48, 48, 57, 55], [49, 48, 55]]
      = specDecode [[49, 48, 48, 48, 57, 55], [49, 48, 55]] ∧
    (∀ f ∈ [[49, 48, 48, 48, 57, 55], [49, 48, 55]], (chunks3 f).flatten = f) ∧
    (evalTclInit allOk [[49, 48, 48, 48, 57, 55], [49, 48, 55]] MState.init).bundleScripts
      = MState.init.bundleScripts ++ [specDecode [[49, 48, 48, 48, 57, 55], [49, 48, 55]]] ∧
    (evalTclInit allOk [[49, 48, 48, 48, 57, 55], [49, 48, 55]] MState.init).trace.count
        Ev.evalBundle
      = MState.init.trace.count Ev.evalBundle + 1 :=
  C3_decode_concatenation [[49, 48, 48, 48, 57, 55], [49, 48, 55]] allOk
    MState.init (by decide) (by decide) rfl

/-! ### Claim C8: decode/encode round trip -/

theorem encode_decode_slice {a b c : Nat} (hv : validSlice [a, b, c] = true) :
    encodeByte (decodeSlice [a, b, c]) = [a, b, c] := by
  rw [decodeSlice_eq_spec hv, specSliceVal_triple]
  simp only [validSlice, Bool.and_eq_true, decide_eq_true_eq, List.all_cons,
    List.all_nil, Bool.and_true] at hv
  obtain ⟨⟨ha, hb, hc⟩, -⟩ := hv
  obtain ⟨ha1, ha2⟩ := isDigitChar_bounds ha
  obtain ⟨hb1, hb2⟩ := isDigitChar_bounds hb
  obtain ⟨hc1, hc2⟩ := isDigitChar_bounds hc
  simp only [encodeByte, List.cons.injEq, and_true]
  refine ⟨?_, ?_, ?_⟩ <;> omega

theorem encodeFragment_decodeFragment : ∀ F : List Nat, F.length % 3 = 0 →
    (∀ sl ∈ chunks3 F, validSlice sl = true) →
    encodeFragment (decodeFragment F) = F
  | [], _, _ => rfl
  | [a], h, _ => by simp at h
  | [a, b], h, _ => by simp at h
  | a :: b :: c :: rest, h, hv => by
    have hr : rest.length % 3 = 0 := by simp at h; omega
    have hva : validSlice [a, b, c] = true := hv [a, b, c] (by rw [chunks3]; simp)
    have ih := encodeFragment_decodeFragment rest hr
      (fun sl hsl => hv sl (by rw [chunks3]; exact List.mem_cons_of_mem _ hsl))
    rw [decodeFragment, chunks3, List.map_cons]
    rw [decodeFragment] at ih
    rw [show encodeFragment (decodeSlice [a, b, c] :: (chunks3 rest).map decodeSlice)
        = encodeByte (decodeSlice [a, b, c])
          ++ encodeFragment ((chunks3 rest).map decodeSlice) from rfl]
    rw [encode_decode_slice hva, ih]
    rfl

/-- Claim C8: for every valid encoded fragment (length a multiple of 3, every
3-character slice a decimal byte code), re-encoding the decoded bytes (each
back to its 3-digit decimal code) reproduces the fragment exactly; the
decoder is a pure function of the fragment alone. -/
theorem C8_decode_encode_roundtrip (F : List Nat) (h3 : F.length % 3 = 0)
    (hv : ∀ sl ∈ chunks3 F, validSlice sl = true) :
    encodeFragment (decodeFragment F) = F :=
  encodeFragment_decodeFragment F h3 hv

/-- Witness for C8 at the concrete fragment "255007". -/
theorem C8_decode_encode_roundtrip_witness :
    ([50, 53, 53, 48, 48, 55] : List Nat).length % 3 = 0 ∧
    (∀ sl ∈ chunks3 [50, 53, 53, 48, 48, 55], validSlice sl = true) ∧
    encodeFragment (decodeFragment [50, 53, 53, 48, 48, 55])
      = [50, 53, 53, 48, 48, 55] :=
  ⟨by decide, by decide,
    C8_decode_encode_roundtrip [50, 53, 53, 48, 48, 55] (by decide) (by decide)⟩

/-! ### Claim C5: loading the history file -/

theorem getLines_flatten : ∀ content : List Nat,
    (getLines content).flatten = content
  | [] => rfl
  | c :: cs => by
    rw [getLines]
    by_cases h : c = 10
    · rw [if_pos h, h]
      simp [getLines_flatten cs]
    · rw [if_neg h]
      rcases hg : getLines cs with _ | ⟨l, ls⟩
      · have hcs := getLines_flatten cs
        rw [hg] at hcs
        simp only [List.flatten_nil] at hcs
        simp [hcs.symm]
      · have hcs := getLines_flatten cs
        rw [hg] at hcs
        simp only [List.flatten_cons] at hcs ⊢
        rw [List.cons_append, hcs]

theorem getLines_ne_nil : ∀ content : List Nat, ∀ l ∈ getLines content, l ≠ []
  | [], l => by simp [getLines]
  | c :: cs, l => by
    rw [getLines]
    by_cases h : c = 10
    · rw [if_pos h]
      intro hl
      rcases List.mem_cons.mp hl with h1 | h1
      · simp [h1]
      · exact getLines_ne_nil cs l h1
    · rw [if_neg h]
      rcases hg : getLines cs with _ | ⟨t, ts⟩
      · intro hl
        rcases List.mem_cons.mp hl with h1 | h1
        · simp [h1]
        · simp at h1
      · intro hl
        rcases List.mem_cons.mp hl with h1 | h1
        · simp [h1]
        · exact getLines_ne_nil cs l (by rw [hg]; exact List.mem_cons_of_mem _ h1)

theorem takeWhile_ne_zero {l : List Nat} (h : ∀ c ∈ l, c ≠ 0) :
    l.takeWhile (fun c => c ≠ 0) = l := by
  induction l with
  | nil => rfl
  | cons c cs ih =>
    rw [List.takeWhile_cons, if_pos (by simpa using h c (by simp))]
    rw [ih (fun x hx => h x (by simp [hx]))]

theorem takeWhile_append_zero {ys : List Nat} (h : ∀ c ∈ ys, c ≠ 0) :
    (ys ++ [0]).takeWhile (fun c => c ≠ 0) = ys := by
  induction ys with
  | nil => rfl
  | cons a as ih =>
    rw [List.cons_append, List.takeWhile_cons, if_pos (by simpa using h a (by simp))]
    rw [ih (fun x hx => h x (by simp [hx]))]

theorem set_last_zero : ∀ ys : List Nat, ∀ y : Nat,
    (ys ++ [y]).set ys.length 0 = ys ++ [0]
  | [], y => rfl
  | a :: as, y => by
    simp only [List.cons_append, List.length_cons, List.set_cons_succ]
    rw [set_last_zero as y]

/-- What load_history's loop body does to one NUL-free, non-empty line: it
drops the line's final character — whether or not that character is a
newline — and keeps the line only if something remains. -/
theorem historyEntryOf_no_nul {line : List Nat} (hne : line ≠ [])
    (hn : ∀ c ∈ line, c ≠ 0) :
    historyEntryOf line =
      (if line.dropLast.isEmpty then none else some line.dropLast) := by
  obtain ⟨ys, y, hc⟩ := (List.eq_nil_or_concat line).resolve_left hne
  rw [List.concat_eq_append] at hc
  subst hc
  have hys : ∀ c ∈ ys, c ≠ 0 := fun c hc => hn c (by simp [hc])
  have hcs : cstrlen (ys ++ [y]) = ys.length + 1 := by
    rw [cstrlen, takeWhile_ne_zero hn]
    simp
  rw [historyEntryOf]
  simp only [hcs, Nat.add_sub_cancel, set_last_zero ys y]
  rw [List.dropLast_concat]
  cases ys with
  | nil => simp
  | cons z zs =>
    have hz : z ≠ 0 := hys z (by simp)
    simp only [List.cons_append, List.headD_cons, List.isEmpty_cons]
    rw [if_pos (by simpa using hz), if_neg (by simp)]
    rw [List.takeWhile_cons, if_pos (by simpa using hz)]
    rw [takeWhile_append_zero (fun x hx => hys x (by simp [hx]))]

/-- Claim C5 counterexample: a history file whose final line "abc" is not
newline-terminated; the loader does not append "abc" intact — it appends
"ab", having unconditionally removed the line's last character. -/
theorem C5_last_line_counterexample :
    load_history [97, 98, 99] ≠ [[97, 98, 99]] ∧
    load_history [97, 98, 99] = [[97, 98]] := by
  decide

/-- Claim C5 (amended): for NUL-free history-file contents, load_history
reads the file line by line and removes from each line exactly its final
character — which is the trailing newline whenever the line has one, but a
final line not terminated by a newline instead loses its last proper
character — skips lines that are empty after the removal, and appends every
other line to the history store in file order. -/
theorem C5_load_history_strips_last (content : List Nat)
    (h : ∀ c ∈ content, c ≠ 0) :
    load_history content = specLoadAmended content := by
  rw [load_history, specLoadAmended]
  apply List.filterMap_congr
  intro line hline
  have hne : line ≠ [] := getLines_ne_nil content line hline
  have hn : ∀ c ∈ line, c ≠ 0 := by
    intro c hc
    apply h
    rw [show content = (getLines content).flatten from (getLines_flatten content).symm]
    exact List.mem_flatten.mpr ⟨line, hline, hc⟩
  exact historyEntryOf_no_nul hne hn

/-- Witness for C5 on the concrete file contents "ab(nl)(nl)cd(nl)e". -/
theorem C5_load_history_strips_last_witness :
    load_history [97, 98, 10, 10, 99, 100, 10, 101]
      = specLoadAmended [97, 98, 10, 10, 99, 100, 10, 101] :=
  C5_load_history_strips_last [97, 98, 10, 10, 99, 100, 10, 101] (by decide)

/-! ### Claim C7: thread-count resolution -/

theorem isSpaceChar_of_digit {c : Nat} (h : isDigitChar c = true) :
    isSpaceChar c = false := by
  obtain ⟨h1, h2⟩ := isDigitChar_bounds h
  simp only [isSpaceChar, Bool.or_eq_false_iff, Bool.and_eq_false_iff]
  constructor
  · simpa using by omega
  · right; simpa using by omega

theorem atoiStr_digits {s : String} (h : isDigits s = true) :
    atoiStr s = (decVal s : Int) := by
  rw [atoiStr, decVal, isDigits] at *
  rcases hs : s.data with _ | ⟨c, cs⟩
  · rfl
  · rw [hs] at h
    simp only [List.all_cons, Bool.and_eq_true] at h
    obtain ⟨hc, hcs⟩ := h
    obtain ⟨hc1, hc2⟩ := isDigitChar_bounds hc
    rw [List.map_cons, atoiList, List.dropWhile_cons,
      if_neg (by simp [isSpaceChar_of_digit hc])]
    dsimp only
    rw [if_neg (by omega), if_neg (by omega)]
    have hall : (c.toNat :: cs.map Char.toNat).all isDigitChar = true := by
      simp only [List.all_cons, Bool.and_eq_true, List.all_map]
      exact ⟨hc, by simpa using hcs⟩
    rw [atoiDigits_all _ _ hall]
    rw [show (c.toNat :: cs.map Char.toNat) = (c :: cs).map Char.toNat from rfl]
    rw [List.foldl_map]

theorem mem_emit_trace {x : Ev} {st : MState} {e : Ev} (h : x ∈ st.trace) :
    x ∈ (emit st e).trace := by
  by_cases hh : st.halted <;> simp [emit, hh, h]

theorem mem_emit_trace_rev {x : Ev} {st : MState} {e : Ev}
    (h : x ∈ (emit st e).trace) : x ∈ st.trace ∨ x = e := by
  by_cases hh : st.halted
  · rw [emit_halted hh] at h
    exact Or.inl h
  · rw [emit, if_neg (by simp [hh])] at h
    simpa using h

theorem mem_repl_trace {oracle : Nat → TclEval} {x : Ev} :
    ∀ (lines : List String) (st : MState), x ∈ st.trace →
      x ∈ (repl oracle lines st).trace
  | [], _, h => h
  | line :: rest, st, h => by
    rw [repl]
    split
    · exact h
    · refine mem_repl_trace rest _ ?_
      by_cases hh : st.halted
      · rw [replIter_halted hh]
        exact h
      · rw [replIter_shape (by simpa using hh)]
        exact List.mem_append_left _ (List.mem_append_left _ (List.mem_append_left _ h))

theorem not_mem_replIter_trace {oracle : Nat → TclEval} {x : Ev} {line : String}
    {st : MState} (hx1 : x ≠ Ev.prompt) (hx2 : ∀ l, x ≠ Ev.evalLine l)
    (hx3 : x ≠ Ev.diagLineErr) (hx4 : ∀ l, x ≠ Ev.addHist l)
    (h : x ∉ st.trace) : x ∉ (replIter oracle line st).trace := by
  by_cases hh : st.halted
  · rw [replIter_halted hh]
    exact h
  · cases hok : (oracle st.n).ok <;> by_cases hl : line = "" <;>
      simp [replIter_shape (show st.halted = false by simpa using hh), hok, hl,
        hx1, hx2, hx3, hx4, h]

theorem not_mem_repl_trace {oracle : Nat → TclEval} {x : Ev}
    (hx1 : x ≠ Ev.prompt) (hx2 : ∀ l, x ≠ Ev.evalLine l)
    (hx3 : x ≠ Ev.diagLineErr) (hx4 : ∀ l, x ≠ Ev.addHist l) :
    ∀ (lines : List String) (st : MState), x ∉ st.trace →
      x ∉ (repl oracle lines st).trace
  | [], _, h => h
  | line :: rest, st, h => by
    rw [repl]
    split
    · exact h
    · exact not_mem_repl_trace hx1 hx2 hx3 hx4 rest _
        (not_mem_replIter_trace hx1 hx2 hx3 hx4 h)

theorem setThreadCount_not_mem_bootSuffix (args : List String) :
    Ev.setThreadCount ∉ bootSuffix args := by
  cases h1 : findCmdLineFlag args "-no_splash" <;>
  cases h2 : findCmdLineFlag args "-no_init" <;>
  cases h3 : findCmdLineKey args "-x" <;>
  cases h4 : findCmdLineKey args "-f" <;>
    · simp only [bootSuffix, h1, h2, h3, h4, if_true, if_false,
        Option.isSome_none, Option.isSome_some, Bool.false_eq_true,
        List.nil_append, List.cons_append, List.append_nil, List.append_assoc]
      decide

/-- Claim C7: when `-threads` carries a value, the value "max" resolves to
the detected processor count and marks the count as recognized (so staMain
forwards it to the engine); a string of decimal digits resolves to its
integer value; any other value only sets the warning (the stderr message),
leaves the thread count at its caller-initialized default 1 and leaves it
unrecognized — and the engine hand-off (setThreadCount) happens in a run
exactly when the value was recognized. -/
theorem C7_threads_resolution (args : List String) (procCount : Nat)
    (oracle : Nat → TclEval) (lines : List String) (inits : List (List Nat))
    (v : String) (hv : findCmdLineKey args "-threads" = some v) :
    parseThreadsArg args procCount =
      (if v = "max" then ⟨(procCount : Int), true, false⟩
       else if isDigits v then ⟨(decVal v : Int), true, false⟩
       else ⟨1, false, true⟩) ∧
    (Ev.setThreadCount ∈ (staMainRun oracle args lines inits procCount).trace
      ↔ (parseThreadsArg args procCount).threadsExists = true) := by
  have hx1 : Ev.setThreadCount ≠ Ev.prompt := by decide
  have hx2 : ∀ l, Ev.setThreadCount ≠ Ev.evalLine l := fun l => by simp
  have hx3 : Ev.setThreadCount ≠ Ev.diagLineErr := by decide
  have hx4 : ∀ l, Ev.setThreadCount ≠ Ev.addHist l := fun l => by simp
  have hrun : staMainRun oracle args lines inits procCount
      = emit (emit (repl oracle lines (bootState oracle args inits procCount))
          Ev.saveHistory) Ev.deleteInterp := rfl
  constructor
  · simp only [parseThreadsArg, hv]
    by_cases h1 : v = "max"
    · rw [if_pos h1, if_pos h1]
    · rw [if_neg h1, if_neg h1]
      by_cases h2 : isDigits v = true
      · rw [if_pos h2, if_pos h2, atoiStr_digits h2]
      · rw [if_neg h2, if_neg h2]
  · constructor
    · intro hmem
      by_contra hne
      have hTf : (parseThreadsArg args procCount).threadsExists = false := by
        cases h : (parseThreadsArg args procCount).threadsExists
        · rfl
        · exact absurd h hne
      have hpre : Ev.setThreadCount ∉ preTrace args procCount := by
        simp [preTrace, hTf]
      have hboot : Ev.setThreadCount ∉ (bootState oracle args inits procCount).trace := by
        cases hok : (oracle 0).ok
        · obtain ⟨ht, -, -⟩ := @bootState_fail oracle args inits procCount hok
          rw [ht]
          simp only [List.mem_append]
          rintro (h | h)
          · exact hpre h
          · exact absurd h (by decide)
        · obtain ⟨ht, -⟩ := @bootState_ok oracle args inits procCount hok
          rw [ht]
          simp only [List.mem_append]
          rintro ((h | h) | h)
          · exact hpre h
          · exact setThreadCount_not_mem_bootSuffix args h
          · exact absurd h (by decide)
      have hrep := @not_mem_repl_trace oracle Ev.setThreadCount hx1 hx2 hx3 hx4 lines _ hboot
      rw [hrun] at hmem
      rcases mem_emit_trace_rev hmem with hmem | hmem
      · rcases mem_emit_trace_rev hmem with hmem | hmem
        · exact hrep hmem
        · exact absurd hmem (by decide)
      · exact absurd hmem (by decide)
    · intro hT
      have hpre : Ev.setThreadCount ∈ preTrace args procCount := by
        simp [preTrace, hT]
      have hboot : Ev.setThreadCount ∈ (bootState oracle args inits procCount).trace := by
        cases hok : (oracle 0).ok
        · obtain ⟨ht, -, -⟩ := @bootState_fail oracle args inits procCount hok
          rw [ht]
          exact List.mem_append_left _ hpre
        · obtain ⟨ht, -⟩ := @bootState_ok oracle args inits procCount hok
          rw [ht]
          exact List.mem_append_left _ (List.mem_append_left _ hpre)
      rw [hrun]
      exact mem_emit_trace (mem_emit_trace (mem_repl_trace lines _ hboot))

/-- Witness for C7 at the concrete invocation "sta -threads 7". -/
theorem C7_threads_resolution_witness :
    parseThreadsArg ["sta", "-threads", "7"] 4 =
      (if ("7" : String) = "max" then ⟨(4 : Int), true, false⟩
       else if isDigits "7" then ⟨(decVal "7" : Int), true, false⟩
       else ⟨1, false, true⟩) ∧
    (Ev.setThreadCount ∈ (staMainRun allOk ["sta", "-threads", "7"] [] [] 4).trace
      ↔ (parseThreadsArg ["sta", "-threads", "7"] 4).threadsExists = true) :=
  C7_threads_resolution ["sta", "-threads", "7"] 4 allOk [] [] "7" rfl

end StaMain
